import Mathlib

/-!
Verification model of `tree/treeplayer/src/TDFInterface.cxx`, the
expression-to-graph bridge of the TDF dataframe library: column-reference
resolution over expression text, column-selection validation, jitted
expression compilation, and action-builder code generation.

External collaborators (the interpreter, the dataset schema lookup
`ColumnName2ColumnTypeName`, the `TClass` registry and the data source) are
modelled as explicit parameters; string building and control flow follow the
C++ source.
-/

namespace TDF

/-- The character class `[a-zA-Z0-9_]`; its complement is the `regexBit`
pattern `[^a-zA-Z0-9_]` that flanks a column name in the matching regex. -/
def isWordChar (c : Char) : Bool :=
  c.isAlpha || c.isDigit || c = '_'

/-- Tail of the regex match: `name` followed by one `[^a-zA-Z0-9_]` character,
matched against a prefix of `l`. -/
def checkName : List Char → List Char → Bool
  | c :: _, [] => !isWordChar c
  | c :: cs, n :: ns => n == c && checkName cs ns
  | [], _ => false

/-- Search for a match of the regex `[^a-zA-Z0-9_]name[^a-zA-Z0-9_]` anywhere
in `l` (the padded expression). -/
def tokenSearch : List Char → List Char → Bool
  | [], _ => false
  | c :: cs, name => (!isWordChar c && checkName cs name) || tokenSearch cs name

/-- Models `TRegexp(regexBit + name + regexBit).Index(paddedExpr, ...) != -1`
where `paddedExpr = " " + expression + " "` (so `' ' :: data ++ [' ']`), for
column names free of regex metacharacters (plain identifiers). -/
def tokenMatch (expression name : String) : Bool :=
  tokenSearch (' ' :: (expression.data ++ [' '])) name.data

/-- `FindUsedColumnNames` from the source: scan custom columns, then tree
branches, then data-source columns; a matching name is appended, a data-source
name only when not already collected. -/
def FindUsedColumnNames (expression : String) (branches : List String)
    (customColumns dsColumns : List String) : List String :=
  let usedBranches := customColumns.foldl
    (fun acc brName => if tokenMatch expression brName then acc ++ [brName] else acc) []
  let usedBranches := branches.foldl
    (fun acc brName => if tokenMatch expression brName then acc ++ [brName] else acc)
    usedBranches
  dsColumns.foldl
    (fun acc col => if tokenMatch expression col then
        (if acc.contains col then acc else acc ++ [col]) else acc)
    usedBranches

/-- Spec-side notion (section 4.1), for the refinement claim about the
resolver: `name` occurs in `expression` as an isolated token, delimited by
non-identifier characters or the ends of the expression. -/
def IsolatedOccurrence (expression name : String) : Prop :=
  ∃ pre post : List Char,
    expression.data = pre ++ name.data ++ post ∧
    (∀ c, pre.getLast? = some c → isWordChar c = false) ∧
    (∀ c, post.head? = some c → isWordChar c = false)

/-- The jitted-scope name written by `ss << "__tdf_" << iNs++`: the `k`-th
invocation since process start reads the `static unsigned int` counter, whose
value is `k` reduced modulo `2^32`. -/
def scopeName (k : Nat) : String :=
  "__tdf_" ++ Nat.repr (k % 4294967296)

/-- The runtime compilation/evaluation capability (`gInterpreter`), modelled
as an oracle: `ProcessLine` yields the interpreter error code (0 is
`kNoError`), `Declare` yields success, `Calc` yields the error code and the
returned `Long_t` value. -/
structure Interp where
  ProcessLine : String → Nat
  Declare : String → Bool
  Calc : String → Nat × Int

/-- One submission to the interpreter, recording which entry point received
which generated source fragment. -/
inductive JitEvent where
  | processLine (code : String)
  | declareCode (code : String)
  | calcCode (code : String)
  deriving DecidableEq, Repr

/-- A concrete oracle for instantiations: every compilation request fails. -/
def failingInterp : Interp :=
  ⟨fun _ => 1, fun _ => false, fun _ => (1, 0)⟩

/-- A concrete oracle for instantiations: every request succeeds and `Calc`
returns the non-null handle 42. -/
def okInterp : Interp :=
  ⟨fun _ => 0, fun _ => true, fun _ => (0, 42)⟩

/-- The namespace declaring one typed placeholder per referenced column
(step 3 of `JitTransformation`). -/
def variableDeclarations (nsName : String) (usedBranches : List String)
    (colTypeName : String → String) : String :=
  "namespace " ++ nsName ++ " \x7b\n" ++
    String.join (usedBranches.map (fun brName =>
      colTypeName brName ++ " " ++ brName ++ ";\n")) ++ "\x7d"

/-- The throwaway declaration validating that the expression type-checks
stand-alone (step 4 of `JitTransformation`). -/
def resDeclaration (nsName expression : String) : String :=
  "namespace " ++ nsName ++ "\x7b auto res = " ++ expression ++ ";\x7d\n"

/-- The anonymous callable taking one reference parameter per referenced
column; `ss.seekp(-2, ss.cur)` drops the trailing `", "` when the parameter
list is non-empty. -/
def filterLambda (usedBranchesTypes usedBranches : List String)
    (expression : String) : String :=
  let params := String.join ((usedBranchesTypes.zip usedBranches).map
    (fun p => p.1 ++ "& " ++ p.2 ++ ", "))
  "[](" ++ (if usedBranchesTypes.isEmpty then params else params.dropRight 2) ++
    ")\x7b return " ++ expression ++ ";\x7d"

/-- The graph-extension call submitted to `Calc`: cast the opaque node
pointer, invoke `Define`/`Filter` with the callable and the quoted column
names, wrap the result in the common `TInterface` return type. -/
def callInvocation (thisPtr methodName interfaceTypeName name returnTypeName
    lambda : String) (usedBranches : List String) : String :=
  let targetTypeName := "ROOT::Experimental::TDF::TInterface<" ++ returnTypeName ++ ">"
  let quoted := String.join (usedBranches.map (fun brName => "\"" ++ brName ++ "\", "))
  targetTypeName ++ "(((" ++ interfaceTypeName ++ "*)" ++ thisPtr ++ ")->" ++
    methodName ++ "(" ++
    (if methodName == "Define" then "\"" ++ name ++ "\", " else "") ++
    lambda ++ ", \x7b" ++
    (if usedBranches.isEmpty then quoted else quoted.dropRight 2) ++ "\x7d" ++
    (if methodName == "Filter" then ", \"" ++ name ++ "\"" else "") ++ "));"

/-- `JitTransformation` from the source. The data source is modelled by its
column-name list, and `ColumnName2ColumnTypeName` (closed over the tree, the
booked temporary branches and the data source) by `colTypeName`. Returns the
outcome (`.error` models the thrown `std::runtime_error`) together with the
ordered list of interpreter submissions. -/
def JitTransformation (interp : Interp) (iNs : Nat)
    (thisPtr methodName interfaceTypeName name expression : String)
    (branches customColumns : List String) (colTypeName : String → String)
    (returnTypeName : String) (dsColumns : List String) :
    Except String Int × List JitEvent :=
  let usedBranches := FindUsedColumnNames expression branches customColumns dsColumns
  let exprNeedsVariables := !usedBranches.isEmpty
  let nsName := scopeName iNs
  let usedBranchesTypes := usedBranches.map colTypeName
  let decls := variableDeclarations nsName usedBranches colTypeName
  let declEvents := if exprNeedsVariables then [JitEvent.processLine decls] else []
  if exprNeedsVariables && interp.ProcessLine decls != 0 then
    (Except.error ("Cannot declare these variables:  " ++ decls ++
        "\nInterpreter error code is " ++ Nat.repr (interp.ProcessLine decls) ++ "."),
      declEvents)
  else
    let res := resDeclaration nsName expression
    let events1 := declEvents ++ [JitEvent.declareCode res]
    if !interp.Declare res then
      (Except.error ("Cannot interpret this expression: " ++ " " ++ res), events1)
    else
      let lambda := filterLambda usedBranchesTypes usedBranches expression
      let callStr := callInvocation thisPtr methodName interfaceTypeName name
        returnTypeName lambda usedBranches
      let events2 := events1 ++ [JitEvent.calcCode callStr]
      let r := interp.Calc callStr
      if r.1 != 0 || r.2 == 0 then
        (Except.error ("Cannot interpret the invocation to " ++ methodName ++ ":  " ++
            callStr ++
            (if r.1 != 0 then "\nInterpreter error code is " ++ Nat.repr r.1 ++ "."
             else "")),
          events2)
      else (Except.ok r.2, events2)

/-- The column-type resolution loop of `JitBuildAndBook`: the first column
whose type name comes back empty aborts with the source's message. -/
def resolveColumnTypes (bl : List String) (colTypeName : String → String) :
    Except String (List String) :=
  match bl with
  | [] => Except.ok []
  | c :: cs =>
    if colTypeName c = "" then
      Except.error ("The type of column " ++ c ++ " could not be guessed. Please specify one.")
    else
      match resolveColumnTypes cs colTypeName with
      | Except.error e => Except.error e
      | Except.ok ts => Except.ok (colTypeName c :: ts)

/-- `JitBuildAndBook` from the source. `ColumnName2ColumnTypeName` is
modelled by `colTypeName`; the `TClass::GetClass` lookups of the
action-result and action type identities by the `Option String` arguments
(`none` models an unregistered type). Pointers are modelled by their printed
form. -/
def JitBuildAndBook (bl : List String) (prevNodeTypename prevNode : String)
    (artClassName atClassName : Option String) (rOnHeap : String)
    (nSlots : Nat) (colTypeName : String → String) : Except String String :=
  match resolveColumnTypes bl colTypeName with
  | Except.error e => Except.error e
  | Except.ok columnTypeNames =>
    match artClassName with
    | none => Except.error "An error occurred while inferring the result type of an operation."
    | some actionResultTypeName =>
      match atClassName with
      | none => Except.error "An error occurred while inferring the action type of the operation."
      | some actionTypeName =>
        Except.ok ("ROOT::Internal::TDF::CallBuildAndBook" ++ "<" ++ actionTypeName ++
          String.join (columnTypeNames.map (fun colType => ", " ++ colType)) ++
          ">(*reinterpret_cast<" ++ prevNodeTypename ++ "*>(" ++ prevNode ++ "), \x7b" ++
          String.intercalate ", " (bl.map (fun c => "\"" ++ c ++ "\"")) ++
          "\x7d, " ++ Nat.repr nSlots ++ ", reinterpret_cast<" ++
          actionResultTypeName ++ "*>(" ++ rOnHeap ++ "));")

/-- Modelled from the spec: `SelectColumns` is declared in the repository's
utility header but its body is not under `src/`. Spec 4.2: "if suppliedNames
is non-empty, its length must equal requestedCount, else fails; if empty,
take the first requestedCount entries of the graph's default-column list,
failing if that list is shorter." -/
def SelectColumns (nColumns : Nat) (columns defaultColumns : List String) :
    Except String (List String) :=
  if columns.isEmpty then
    if defaultColumns.length < nColumns then
      Except.error "No default columns are available: insufficient default column list."
    else
      Except.ok (defaultColumns.take nColumns)
  else if columns.length ≠ nColumns then
    Except.error "Mismatch between the number of required and supplied columns."
  else
    Except.ok columns

/-- Modelled from the spec: `FindUnknownColumns` is declared in the
repository's utility header but its body is not under `src/`. Spec 4.2 and
section 8: every selected name must exist in
dataset-native ∪ custom ∪ data-source, and "unknown-column detection
enumerates every unknown name exactly once". -/
def FindUnknownColumns (requestedCols treeBranchNames customColumns dsColumns :
    List String) : List String :=
  requestedCols.foldl
    (fun acc c =>
      if (c ∈ treeBranchNames ∨ c ∈ customColumns ∨ c ∈ dsColumns) ∨ c ∈ acc then acc
      else acc ++ [c]) []

/-- The error-message loop of `GetValidatedColumnNames`: the first delimiter
selects singular or plural phrasing, every later one is a comma. -/
def unknownColumnsMessage (unknownColumns : List String) : String :=
  let delim0 := if 1 < unknownColumns.length then "s: " else ": "
  "Unknown column" ++
    (unknownColumns.foldl (fun (p : String × String) unknown =>
      (p.1 ++ p.2 ++ unknown, ",")) ("", delim0)).1

/-- `GetValidatedColumnNames` from the source. The loop manager is modelled
by its default-column list and its tree's branch names, the data source by
its column-name list. -/
def GetValidatedColumnNames (defaultColumns treeBranchNames : List String)
    (nColumns : Nat) (columns validCustomColumns dsColumns : List String) :
    Except String (List String) :=
  match SelectColumns nColumns columns defaultColumns with
  | Except.error e => Except.error e
  | Except.ok selectedColumns =>
    let unknownColumns := FindUnknownColumns selectedColumns treeBranchNames
      validCustomColumns dsColumns
    if unknownColumns.isEmpty then Except.ok selectedColumns
    else Except.error (unknownColumnsMessage unknownColumns)

/-- `AtLeastOneEmptyString` from the source: scan the list, return `true` at
the first empty string. -/
def AtLeastOneEmptyString (strings : List String) : Bool :=
  strings.any (fun s => s.isEmpty)

/-- `FindUndefinedDSColumns` from the source: one flag per requested column,
`true` iff `std::find` fails on `definedCols`. -/
def FindUndefinedDSColumns (requestedCols definedCols : List String) : List Bool :=
  requestedCols.map (fun c => !definedCols.contains c)

/-! ### List helper lemmas for the resolver folds -/

theorem contains_iff_mem (l : List String) (a : String) :
    l.contains a = true ↔ a ∈ l := by
  simp [List.elem_iff]

theorem foldl_append_filter (p : String → Bool) (l init : List String) :
    l.foldl (fun acc x => if p x then acc ++ [x] else acc) init =
      init ++ l.filter p := by
  induction l generalizing init with
  | nil => simp
  | cons x xs ih =>
    by_cases h : p x <;>
      simp [List.filter_cons, h, ih, List.append_assoc]

theorem dsFoldl_exists_extra (p : String → Bool) (l init : List String) :
    ∃ extra,
      l.foldl (fun acc col => if p col then
          (if acc.contains col then acc else acc ++ [col]) else acc) init =
        init ++ extra ∧
      ∀ c ∈ extra, c ∈ l ∧ p c = true := by
  induction l generalizing init with
  | nil => exact ⟨[], by simp, by simp⟩
  | cons x xs ih =>
    simp only [List.foldl_cons]
    by_cases hp : p x
    · by_cases hc : init.contains x
      · simp only [hp, hc, if_true]
        obtain ⟨extra, he, hprop⟩ := ih init
        exact ⟨extra, he, fun c hcm =>
          ⟨List.mem_cons_of_mem x (hprop c hcm).1, (hprop c hcm).2⟩⟩
      · simp only [hp, hc, if_true, if_false, Bool.false_eq_true]
        obtain ⟨extra, he, hprop⟩ := ih (init ++ [x])
        refine ⟨x :: extra, ?_, ?_⟩
        · rw [he]; simp [List.append_assoc]
        · intro c hcm
          rcases List.mem_cons.1 hcm with rfl | hcm'
          · exact ⟨List.mem_cons_self _ _, hp⟩
          · exact ⟨List.mem_cons_of_mem x (hprop c hcm').1, (hprop c hcm').2⟩
    · simp only [hp, if_false, Bool.false_eq_true]
      obtain ⟨extra, he, hprop⟩ := ih init
      exact ⟨extra, he, fun c hcm =>
        ⟨List.mem_cons_of_mem x (hprop c hcm).1, (hprop c hcm).2⟩⟩

theorem dsFoldl_mem (p : String → Bool) (l init : List String) (a : String) :
    (a ∈ l.foldl (fun acc col => if p col then
        (if acc.contains col then acc else acc ++ [col]) else acc) init) ↔
      a ∈ init ∨ (a ∈ l ∧ p a = true) := by
  induction l generalizing init with
  | nil => simp
  | cons x xs ih =>
    simp only [List.foldl_cons]
    by_cases hp : p x
    · by_cases hc : init.contains x
      · simp only [hp, hc, if_true]
        rw [ih]
        have hx : x ∈ init := (contains_iff_mem init x).1 hc
        constructor
        · rintro (h | ⟨h1, h2⟩)
          · exact Or.inl h
          · exact Or.inr ⟨List.mem_cons_of_mem x h1, h2⟩
        · rintro (h | ⟨h1, h2⟩)
          · exact Or.inl h
          · rcases List.mem_cons.1 h1 with rfl | h1'
            · exact Or.inl hx
            · exact Or.inr ⟨h1', h2⟩
      · simp only [hp, hc, if_true, if_false, Bool.false_eq_true]
        rw [ih]
        constructor
        · rintro (h | ⟨h1, h2⟩)
          · rcases List.mem_append.1 h with h' | h'
            · exact Or.inl h'
            · have hax : a = x := by simpa using h'
              exact Or.inr ⟨by simp [hax], hax ▸ hp⟩
          · exact Or.inr ⟨List.mem_cons_of_mem x h1, h2⟩
        · rintro (h | ⟨h1, h2⟩)
          · exact Or.inl (List.mem_append.2 (Or.inl h))
          · rcases List.mem_cons.1 h1 with rfl | h1'
            · exact Or.inl (List.mem_append.2 (Or.inr (by simp)))
            · exact Or.inr ⟨h1', h2⟩
    · simp only [hp, if_false, Bool.false_eq_true]
      rw [ih]
      constructor
      · rintro (h | ⟨h1, h2⟩)
        · exact Or.inl h
        · exact Or.inr ⟨List.mem_cons_of_mem x h1, h2⟩
      · rintro (h | ⟨h1, h2⟩)
        · exact Or.inl h
        · rcases List.mem_cons.1 h1 with rfl | h1'
          · exact absurd h2 (by simp [hp])
          · exact Or.inr ⟨h1', h2⟩

theorem dsFoldl_nodup (p : String → Bool) (l init : List String)
    (h : init.Nodup) :
    (l.foldl (fun acc col => if p col then
        (if acc.contains col then acc else acc ++ [col]) else acc) init).Nodup := by
  induction l generalizing init with
  | nil => exact h
  | cons x xs ih =>
    simp only [List.foldl_cons]
    by_cases hp : p x
    · by_cases hc : init.contains x
      · simp only [hp, hc, if_true]; exact ih init h
      · simp only [hp, hc, if_true, if_false, Bool.false_eq_true]
        refine ih (init ++ [x]) ?_
        have hx : x ∉ init := fun hm => hc ((contains_iff_mem init x).2 hm)
        simp [List.nodup_append, h, List.disjoint_singleton, hx]
    · simp only [hp, if_false, Bool.false_eq_true]; exact ih init h

/-! ### The token matcher matches exactly the isolated occurrences -/

theorem checkName_iff (name : List Char) : ∀ l : List Char,
    checkName l name = true ↔
      ∃ d rest, l = name ++ d :: rest ∧ isWordChar d = false := by
  induction name with
  | nil =>
    intro l
    cases l with
    | nil =>
      simp only [checkName, List.nil_append]
      constructor
      · intro h; cases h
      · rintro ⟨d, rest, h, -⟩; cases h
    | cons c cs =>
      simp only [checkName, Bool.not_eq_true', List.nil_append]
      constructor
      · intro h; exact ⟨c, cs, rfl, h⟩
      · rintro ⟨d, rest, heq, hd⟩
        injection heq with h1 h2
        exact h1 ▸ hd
  | cons n ns ih =>
    intro l
    cases l with
    | nil =>
      simp only [checkName, List.cons_append]
      constructor
      · intro h; cases h
      · rintro ⟨d, rest, h, -⟩; cases h
    | cons c cs =>
      simp only [checkName, Bool.and_eq_true, beq_iff_eq, ih cs, List.cons_append]
      constructor
      · rintro ⟨rfl, d, rest, rfl, hd⟩
        exact ⟨d, rest, rfl, hd⟩
      · rintro ⟨d, rest, heq, hd⟩
        injection heq with h1 h2
        exact ⟨h1.symm, d, rest, h2, hd⟩

theorem tokenSearch_iff (name : List Char) : ∀ l : List Char,
    tokenSearch l name = true ↔
      ∃ pre c d rest, l = pre ++ c :: (name ++ d :: rest) ∧
        isWordChar c = false ∧ isWordChar d = false := by
  intro l
  induction l with
  | nil =>
    simp only [tokenSearch]
    constructor
    · intro h; cases h
    · rintro ⟨pre, c, d, rest, h, -, -⟩
      cases pre <;> cases h
  | cons x xs ih =>
    simp only [tokenSearch, Bool.or_eq_true, Bool.and_eq_true, Bool.not_eq_true',
      checkName_iff, ih]
    constructor
    · rintro (⟨hx, d, rest, rfl, hd⟩ | ⟨pre, c, d, rest, rfl, hc, hd⟩)
      · exact ⟨[], x, d, rest, rfl, hx, hd⟩
      · exact ⟨x :: pre, c, d, rest, rfl, hc, hd⟩
    · rintro ⟨pre, c, d, rest, heq, hc, hd⟩
      cases pre with
      | nil =>
        injection heq with h1 h2
        subst h1
        exact Or.inl ⟨hc, d, rest, h2, hd⟩
      | cons p pre' =>
        injection heq with h1 h2
        exact Or.inr ⟨pre', c, d, rest, h2, hc, hd⟩

theorem tokenSearch_padded_iff (e n : List Char) :
    tokenSearch (' ' :: (e ++ [' '])) n = true ↔
      ∃ pre post, e = pre ++ n ++ post ∧
        (∀ c, pre.getLast? = some c → isWordChar c = false) ∧
        (∀ c, post.head? = some c → isWordChar c = false) := by
  rw [tokenSearch_iff]
  constructor
  · rintro ⟨pre, c, d, rest, heq, hc, hd⟩
    cases pre with
    | nil =>
      simp only [List.nil_append] at heq
      injection heq with h1 h2
      rcases rest.eq_nil_or_concat with rfl | ⟨rest', r, hr⟩
      · have h2' : e ++ [' '] = n ++ [d] := by simpa using h2
        obtain ⟨he, -⟩ := List.append_inj' h2' (by simp)
        exact ⟨[], [], by simpa using he, by simp, by simp⟩
      · subst hr
        have h2' : e ++ [' '] = (n ++ d :: rest') ++ [r] := by
          simpa [List.concat_eq_append, List.append_assoc] using h2
        obtain ⟨he, -⟩ := List.append_inj' h2' (by simp)
        refine ⟨[], d :: rest', by simpa [List.append_assoc] using he, by simp, ?_⟩
        intro c' hc'
        simp only [List.head?_cons, Option.some.injEq] at hc'
        exact hc' ▸ hd
    | cons p pre' =>
      injection heq with h1 h2
      rcases rest.eq_nil_or_concat with rfl | ⟨rest', r, hr⟩
      · have h2' : e ++ [' '] = (pre' ++ c :: n) ++ [d] := by
          simpa [List.append_assoc] using h2
        obtain ⟨he, -⟩ := List.append_inj' h2' (by simp)
        refine ⟨pre' ++ [c], [], by simpa [List.append_assoc] using he, ?_, by simp⟩
        intro c' hc'
        rw [List.getLast?_concat] at hc'
        injection hc' with h3
        exact h3 ▸ hc
      · subst hr
        have h2' : e ++ [' '] = (pre' ++ c :: (n ++ d :: rest')) ++ [r] := by
          simpa [List.concat_eq_append, List.append_assoc] using h2
        obtain ⟨he, -⟩ := List.append_inj' h2' (by simp)
        refine ⟨pre' ++ [c], d :: rest', by simpa [List.append_assoc] using he, ?_, ?_⟩
        · intro c' hc'
          rw [List.getLast?_concat] at hc'
          injection hc' with h3
          exact h3 ▸ hc
        · intro c' hc'
          simp only [List.head?_cons, Option.some.injEq] at hc'
          exact hc' ▸ hd
  · rintro ⟨pre, post, rfl, hpre, hpost⟩
    rcases pre.eq_nil_or_concat with rfl | ⟨pre', c, hpre'⟩
    · cases post with
      | nil =>
        exact ⟨[], ' ', ' ', [], by simp, by decide, by decide⟩
      | cons d post' =>
        exact ⟨[], ' ', d, post' ++ [' '], by simp [List.append_assoc],
          by decide, hpost d (by simp)⟩
    · subst hpre'
      cases post with
      | nil =>
        refine ⟨' ' :: pre', c, ' ', [], ?_,
          hpre c (by simp [List.concat_eq_append, List.getLast?_concat]), by decide⟩
        simp [List.concat_eq_append, List.append_assoc]
      | cons d post' =>
        refine ⟨' ' :: pre', c, d, post' ++ [' '], ?_,
          hpre c (by simp [List.concat_eq_append, List.getLast?_concat]),
          hpost d (by simp)⟩
        simp [List.concat_eq_append, List.append_assoc]

theorem tokenMatch_iff_isolated (expression name : String) :
    tokenMatch expression name = true ↔ IsolatedOccurrence expression name :=
  tokenSearch_padded_iff expression.data name.data

/-- Membership in the resolver's output: a name is returned exactly when it is
known (in one of the three namespaces) and the token matcher accepts it. -/
theorem mem_findUsedColumnNames (expression a : String)
    (branches customColumns dsColumns : List String) :
    a ∈ FindUsedColumnNames expression branches customColumns dsColumns ↔
      (a ∈ customColumns ∨ a ∈ branches ∨ a ∈ dsColumns) ∧
        tokenMatch expression a = true := by
  unfold FindUsedColumnNames
  rw [dsFoldl_mem, foldl_append_filter, foldl_append_filter]
  simp only [List.nil_append, List.mem_append, List.mem_filter]
  constructor
  · rintro ((⟨h1, h2⟩ | ⟨h1, h2⟩) | ⟨h1, h2⟩)
    · exact ⟨Or.inl h1, h2⟩
    · exact ⟨Or.inr (Or.inl h1), h2⟩
    · exact ⟨Or.inr (Or.inr h1), h2⟩
  · rintro ⟨h1 | h1 | h1, h2⟩
    · exact Or.inl (Or.inl ⟨h1, h2⟩)
    · exact Or.inl (Or.inr ⟨h1, h2⟩)
    · exact Or.inr ⟨h1, h2⟩

/-! ### Claim C1: order and duplicates of the resolver output -/

/-- C1 counterexample: the duplicate suppression of `FindUsedColumnNames`
only guards the data-source scan, so a name that is both a custom column and
a tree branch is returned twice. With expression `"x"`, custom columns
`{"x"}` and branch names `{"x"}`, the result is `["x", "x"]`, which has a
duplicate — the claim that the list never contains a duplicate name fails. -/
theorem findUsedColumnNames_dup_cex :
    FindUsedColumnNames "x" ["x"] ["x"] [] = ["x", "x"] ∧
    ¬ (FindUsedColumnNames "x" ["x"] ["x"] []).Nodup := by
  exact ⟨by decide, by decide⟩

/-- C1 (amended): the list returned by `FindUsedColumnNames` is always
ordered with the matching custom-column names first (in list order), then the
matching dataset (tree-branch) names, then matching data-source names; and
provided the custom-column and dataset name lists are each duplicate-free and
share no name, it contains no duplicate name. -/
theorem findUsedColumnNames_order_nodup (expression : String)
    (branches customColumns dsColumns : List String)
    (h1 : customColumns.Nodup) (h2 : branches.Nodup)
    (h3 : ∀ c ∈ customColumns, c ∉ branches) :
    (∃ dsUsed,
      FindUsedColumnNames expression branches customColumns dsColumns =
        customColumns.filter (fun c => tokenMatch expression c) ++
          branches.filter (fun c => tokenMatch expression c) ++ dsUsed ∧
      ∀ c ∈ dsUsed, c ∈ dsColumns ∧ tokenMatch expression c = true) ∧
    (FindUsedColumnNames expression branches customColumns dsColumns).Nodup := by
  have hinit :
      ((customColumns.filter (fun c => tokenMatch expression c)) ++
        (branches.filter (fun c => tokenMatch expression c))).Nodup := by
    rw [List.nodup_append]
    refine ⟨h1.filter _, h2.filter _, ?_⟩
    intro a ha hb
    exact h3 a (List.mem_filter.1 ha).1 (List.mem_filter.1 hb).1
  unfold FindUsedColumnNames
  simp only [foldl_append_filter, List.nil_append]
  obtain ⟨extra, he, hp⟩ := dsFoldl_exists_extra (fun c => tokenMatch expression c)
    dsColumns ((customColumns.filter (fun c => tokenMatch expression c)) ++
      (branches.filter (fun c => tokenMatch expression c)))
  exact ⟨⟨extra, by rw [he], hp⟩, dsFoldl_nodup _ _ _ hinit⟩

/-- C1 witness. -/
theorem findUsedColumnNames_order_nodup_witness :
    (["x"] : List String).Nodup ∧ (["max_val"] : List String).Nodup ∧
    (∀ c ∈ (["x"] : List String), c ∉ (["max_val"] : List String)) ∧
    ((∃ dsUsed,
      FindUsedColumnNames "x + y > max_val" ["max_val"] ["x"] ["y"] =
        List.filter (fun c => tokenMatch "x + y > max_val" c) ["x"] ++
          List.filter (fun c => tokenMatch "x + y > max_val" c) ["max_val"] ++ dsUsed ∧
      ∀ c ∈ dsUsed, c ∈ (["y"] : List String) ∧
        tokenMatch "x + y > max_val" c = true) ∧
    (FindUsedColumnNames "x + y > max_val" ["max_val"] ["x"] ["y"]).Nodup) :=
  ⟨by decide, by decide, by decide,
    findUsedColumnNames_order_nodup "x + y > max_val" ["max_val"] ["x"] ["y"]
      (by decide) (by decide) (by decide)⟩

/-! ### Claim C2: isolated-token matching -/

/-- C2: a known column name is returned by `FindUsedColumnNames` if and only
if it occurs in the expression text as an isolated token (delimited by
non-identifier characters or the ends of the expression); a name occurring
only inside a longer identifier is never returned. The hypothesis restricts
the name to the identifier alphabet: the matching primitive (`TRegexp`) is an
external capability, modelled here for names free of regex metacharacters.
In particular, for `"x + y > max_val"` with custom columns `{x, y}` and
dataset columns `{max_val, z}`, the result is `[x, y, max_val]`. -/
theorem findUsedColumnNames_token_iff (expression name : String)
    (branches customColumns dsColumns : List String)
    (hident : name ≠ "" ∧ name.data.all isWordChar = true) :
    (name ∈ FindUsedColumnNames expression branches customColumns dsColumns ↔
      (name ∈ customColumns ∨ name ∈ branches ∨ name ∈ dsColumns) ∧
        IsolatedOccurrence expression name) ∧
    FindUsedColumnNames "x + y > max_val" ["max_val", "z"] ["x", "y"] [] =
      ["x", "y", "max_val"] := by
  refine ⟨?_, by decide⟩
  rw [mem_findUsedColumnNames, tokenMatch_iff_isolated]

/-- C2 witness. -/
theorem findUsedColumnNames_token_iff_witness :
    (("max_val" : String) ≠ "" ∧ "max_val".data.all isWordChar = true) ∧
    (("max_val" ∈ FindUsedColumnNames "x + y > max_val" ["max_val", "z"] ["x", "y"] [] ↔
      ("max_val" ∈ (["x", "y"] : List String) ∨
        "max_val" ∈ (["max_val", "z"] : List String) ∨
        "max_val" ∈ ([] : List String)) ∧
        IsolatedOccurrence "x + y > max_val" "max_val") ∧
    FindUsedColumnNames "x + y > max_val" ["max_val", "z"] ["x", "y"] [] =
      ["x", "y", "max_val"]) :=
  ⟨⟨by decide, by decide⟩,
    findUsedColumnNames_token_iff "x + y > max_val" "max_val" ["max_val", "z"]
      ["x", "y"] [] ⟨by decide, by decide⟩⟩

/-! ### Claim C8: undefined data-source column flags -/

/-- C8: `FindUndefinedDSColumns` returns one flag per requested column, the
`i`-th being `true` exactly when the `i`-th requested name is absent from the
defined list; with an empty defined list every flag is `true`. -/
theorem findUndefinedDSColumns_spec (requestedCols definedCols : List String) :
    (FindUndefinedDSColumns requestedCols definedCols).length = requestedCols.length ∧
    (∀ i (h1 : i < (FindUndefinedDSColumns requestedCols definedCols).length)
      (h2 : i < requestedCols.length),
      (FindUndefinedDSColumns requestedCols definedCols).get ⟨i, h1⟩ = true ↔
        requestedCols.get ⟨i, h2⟩ ∉ definedCols) ∧
    (definedCols = [] →
      ∀ b ∈ FindUndefinedDSColumns requestedCols definedCols, b = true) := by
  refine ⟨by simp [FindUndefinedDSColumns], ?_, ?_⟩
  · intro i h1 h2
    simp only [FindUndefinedDSColumns, List.get_eq_getElem, List.getElem_map]
    constructor
    · intro h hm
      rw [(contains_iff_mem definedCols _).2 hm] at h
      simp at h
    · intro hm
      have hcf : definedCols.contains (requestedCols[i]) = false := by
        cases hcon : definedCols.contains (requestedCols[i])
        · rfl
        · exact absurd ((contains_iff_mem _ _).1 hcon) hm
      simp [hcf]
      exact hm
  · rintro rfl b hb
    simp only [FindUndefinedDSColumns, List.mem_map] at hb
    obtain ⟨c, -, hc⟩ := hb
    simp at hc
    exact hc

/-- C8 witness. -/
theorem findUndefinedDSColumns_spec_witness :
    ((FindUndefinedDSColumns ["a", "b"] ["b"]).length = (["a", "b"] : List String).length ∧
    (∀ i (h1 : i < (FindUndefinedDSColumns ["a", "b"] ["b"]).length)
      (h2 : i < (["a", "b"] : List String).length),
      (FindUndefinedDSColumns ["a", "b"] ["b"]).get ⟨i, h1⟩ = true ↔
        (["a", "b"] : List String).get ⟨i, h2⟩ ∉ (["b"] : List String)) ∧
    ((["b"] : List String) = [] →
      ∀ b ∈ FindUndefinedDSColumns ["a", "b"] ["b"], b = true)) ∧
    FindUndefinedDSColumns ["a", "b"] ["b"] = [true, false] :=
  ⟨findUndefinedDSColumns_spec ["a", "b"] ["b"], by decide⟩

/-! ### Claim C10: AtLeastOneEmptyString -/

/-- C10: `AtLeastOneEmptyString` returns `true` exactly when some element is
the empty string, and returns `false` on the empty list. -/
theorem atLeastOneEmptyString_spec :
    (∀ strings : List String,
      AtLeastOneEmptyString strings = true ↔ ∃ s ∈ strings, s = "") ∧
    AtLeastOneEmptyString [] = false := by
  refine ⟨?_, rfl⟩
  intro strings
  simp [AtLeastOneEmptyString, List.any_eq_true, String.isEmpty_iff]

/-! ### Helper lemmas for the validator -/

instance {ε α : Type} [DecidableEq ε] [DecidableEq α] :
    DecidableEq (Except ε α) := fun a b =>
  match a, b with
  | Except.error x, Except.error y =>
    if h : x = y then Decidable.isTrue (by rw [h])
    else Decidable.isFalse (by intro hc; injection hc with hc; exact h hc)
  | Except.error _, Except.ok _ => Decidable.isFalse (by intro hc; cases hc)
  | Except.ok _, Except.error _ => Decidable.isFalse (by intro hc; cases hc)
  | Except.ok x, Except.ok y =>
    if h : x = y then Decidable.isTrue (by rw [h])
    else Decidable.isFalse (by intro hc; injection hc with hc; exact h hc)

theorem unknownFoldl_mem (tree custom ds : List String) (l : List String) :
    ∀ (init : List String) (a : String),
    (a ∈ l.foldl (fun acc c =>
        if (c ∈ tree ∨ c ∈ custom ∨ c ∈ ds) ∨ c ∈ acc then acc else acc ++ [c]) init) ↔
      a ∈ init ∨ (a ∈ l ∧ ¬(a ∈ tree ∨ a ∈ custom ∨ a ∈ ds)) := by
  induction l with
  | nil => intro init a; simp
  | cons x xs ih =>
    intro init a
    simp only [List.foldl_cons]
    by_cases hx : (x ∈ tree ∨ x ∈ custom ∨ x ∈ ds) ∨ x ∈ init
    · rw [if_pos hx, ih]
      rcases hx with hx | hx
      · constructor
        · rintro (h | ⟨h1, h2⟩)
          · exact Or.inl h
          · exact Or.inr ⟨List.mem_cons_of_mem x h1, h2⟩
        · rintro (h | ⟨h1, h2⟩)
          · exact Or.inl h
          · rcases List.mem_cons.1 h1 with rfl | h1'
            · exact absurd hx h2
            · exact Or.inr ⟨h1', h2⟩
      · constructor
        · rintro (h | ⟨h1, h2⟩)
          · exact Or.inl h
          · exact Or.inr ⟨List.mem_cons_of_mem x h1, h2⟩
        · rintro (h | ⟨h1, h2⟩)
          · exact Or.inl h
          · rcases List.mem_cons.1 h1 with rfl | h1'
            · exact Or.inl hx
            · exact Or.inr ⟨h1', h2⟩
    · rw [if_neg hx, ih]
      have hx1 : ¬(x ∈ tree ∨ x ∈ custom ∨ x ∈ ds) := fun h => hx (Or.inl h)
      constructor
      · rintro (h | ⟨h1, h2⟩)
        · rcases List.mem_append.1 h with h' | h'
          · exact Or.inl h'
          · have hax : a = x := by simpa using h'
            exact Or.inr ⟨by simp [hax], hax ▸ hx1⟩
        · exact Or.inr ⟨List.mem_cons_of_mem x h1, h2⟩
      · rintro (h | ⟨h1, h2⟩)
        · exact Or.inl (List.mem_append.2 (Or.inl h))
        · rcases List.mem_cons.1 h1 with rfl | h1'
          · exact Or.inl (List.mem_append.2 (Or.inr (by simp)))
          · exact Or.inr ⟨h1', h2⟩

theorem unknownFoldl_nodup (tree custom ds : List String) (l : List String) :
    ∀ init : List String, init.Nodup →
    (l.foldl (fun acc c =>
        if (c ∈ tree ∨ c ∈ custom ∨ c ∈ ds) ∨ c ∈ acc then acc else acc ++ [c])
      init).Nodup := by
  induction l with
  | nil => intro init h; exact h
  | cons x xs ih =>
    intro init h
    simp only [List.foldl_cons]
    by_cases hx : (x ∈ tree ∨ x ∈ custom ∨ x ∈ ds) ∨ x ∈ init
    · rw [if_pos hx]; exact ih init h
    · rw [if_neg hx]
      have hx2 : x ∉ init := fun hm => hx (Or.inr hm)
      refine ih (init ++ [x]) ?_
      simp [List.nodup_append, h, List.disjoint_singleton, hx2]

theorem findUnknownColumns_mem (requestedCols tree custom ds : List String)
    (a : String) :
    a ∈ FindUnknownColumns requestedCols tree custom ds ↔
      a ∈ requestedCols ∧ ¬(a ∈ tree ∨ a ∈ custom ∨ a ∈ ds) := by
  unfold FindUnknownColumns
  rw [unknownFoldl_mem]
  simp

theorem findUnknownColumns_nodup (requestedCols tree custom ds : List String) :
    (FindUnknownColumns requestedCols tree custom ds).Nodup :=
  unknownFoldl_nodup tree custom ds requestedCols [] List.nodup_nil

theorem messageFold_extend (l : List String) :
    ∀ acc d : String,
    ∃ t, (l.foldl (fun (p : String × String) unknown =>
        (p.1 ++ p.2 ++ unknown, ",")) (acc, d)).1 = acc ++ t := by
  induction l with
  | nil => intro acc d; exact ⟨"", (String.append_empty acc).symm⟩
  | cons x xs ih =>
    intro acc d
    simp only [List.foldl_cons]
    obtain ⟨t, ht⟩ := ih (acc ++ d ++ x) ","
    exact ⟨d ++ (x ++ t), by rw [ht, String.append_assoc, String.append_assoc]⟩

theorem unknownColumnsMessage_singleton (u : String) :
    unknownColumnsMessage [u] = "Unknown column: " ++ u := by
  unfold unknownColumnsMessage
  simp only [List.length_singleton, List.foldl_cons, List.foldl_nil]
  have h1 : ("Unknown column" ++ ": " : String) = "Unknown column: " := by decide
  rw [if_neg (by omega), String.empty_append, ← String.append_assoc, h1]

theorem unknownColumnsMessage_plural (u v : String) (rest : List String) :
    ∃ t, unknownColumnsMessage (u :: v :: rest) = "Unknown columns: " ++ t := by
  unfold unknownColumnsMessage
  simp only [List.length_cons, List.foldl_cons]
  rw [if_pos (by omega)]
  obtain ⟨t, ht⟩ := messageFold_extend rest ("" ++ "s: " ++ u ++ "," ++ v) ","
  refine ⟨u ++ "," ++ v ++ t, ?_⟩
  have h1 : ("Unknown column" ++ "s: " : String) = "Unknown columns: " := by decide
  rw [ht, String.empty_append]
  simp only [← String.append_assoc]
  rw [h1]

theorem gvcn_ok_iff (defaultColumns treeBranchNames : List String)
    (nColumns : Nat) (columns validCustomColumns dsColumns r : List String) :
    GetValidatedColumnNames defaultColumns treeBranchNames nColumns columns
        validCustomColumns dsColumns = Except.ok r ↔
      SelectColumns nColumns columns defaultColumns = Except.ok r ∧
      FindUnknownColumns r treeBranchNames validCustomColumns dsColumns = [] := by
  unfold GetValidatedColumnNames
  cases hsel : SelectColumns nColumns columns defaultColumns with
  | error e =>
    dsimp only
    constructor
    · intro h; cases h
    · rintro ⟨h, -⟩; cases h
  | ok sel =>
    dsimp only
    by_cases hu : (FindUnknownColumns sel treeBranchNames validCustomColumns
        dsColumns).isEmpty
    · rw [if_pos hu]
      constructor
      · intro h
        injection h with h
        subst h
        exact ⟨rfl, List.isEmpty_iff.1 hu⟩
      · rintro ⟨h, -⟩
        injection h with h
        rw [h]
    · rw [if_neg hu]
      constructor
      · intro h; cases h
      · rintro ⟨h, hfu⟩
        injection h with h
        subst h
        exact absurd (by simp [hfu]) hu

/-! ### Claim C3: column selection in GetValidatedColumnNames -/

/-- C3: when the supplied column list is non-empty, `GetValidatedColumnNames`
succeeds only with length equal to the requested count and then returns the
supplied list verbatim; when it is empty, any successful result is the first
`nColumns` default columns, and the call fails when the default list is too
short. (`SelectColumns` is modelled from the spec: its body is not under
`src/`.) -/
theorem getValidatedColumnNames_selection (defaultColumns treeBranchNames :
    List String) (nColumns : Nat)
    (columns validCustomColumns dsColumns : List String) :
    (columns ≠ [] → ∀ r,
      GetValidatedColumnNames defaultColumns treeBranchNames nColumns columns
        validCustomColumns dsColumns = Except.ok r →
      columns.length = nColumns ∧ r = columns) ∧
    (columns = [] →
      (∀ r, GetValidatedColumnNames defaultColumns treeBranchNames nColumns
          columns validCustomColumns dsColumns = Except.ok r →
        r = defaultColumns.take nColumns) ∧
      (defaultColumns.length < nColumns →
        ∃ e, GetValidatedColumnNames defaultColumns treeBranchNames nColumns
          columns validCustomColumns dsColumns = Except.error e)) := by
  constructor
  · intro hne r hr
    obtain ⟨hsel, -⟩ := (gvcn_ok_iff defaultColumns treeBranchNames nColumns
      columns validCustomColumns dsColumns r).1 hr
    have hB : ¬ columns.isEmpty = true := by
      simp [List.isEmpty_iff]; exact hne
    unfold SelectColumns at hsel
    rw [if_neg hB] at hsel
    by_cases hlen : columns.length = nColumns
    · rw [if_neg (by simpa using hlen)] at hsel
      injection hsel with h
      exact ⟨hlen, h.symm⟩
    · rw [if_pos hlen] at hsel
      cases hsel
  · intro hcols
    subst hcols
    constructor
    · intro r hr
      obtain ⟨hsel, -⟩ := (gvcn_ok_iff defaultColumns treeBranchNames nColumns
        [] validCustomColumns dsColumns r).1 hr
      unfold SelectColumns at hsel
      rw [if_pos (show ([] : List String).isEmpty = true from rfl)] at hsel
      by_cases hlt : defaultColumns.length < nColumns
      · rw [if_pos hlt] at hsel
        cases hsel
      · rw [if_neg hlt] at hsel
        injection hsel with h
        exact h.symm
    · intro hlt
      refine ⟨"No default columns are available: insufficient default column list.", ?_⟩
      unfold GetValidatedColumnNames SelectColumns
      rw [if_pos (show ([] : List String).isEmpty = true from rfl), if_pos hlt]

/-- C3 witness: the empty-supplied-list branch selects the first two
defaults, and the non-empty branch returns the supplied list verbatim. -/
theorem getValidatedColumnNames_selection_witness :
    GetValidatedColumnNames ["a", "b", "c"] ["a", "b", "c"] 2 [] [] [] =
      Except.ok ["a", "b"] ∧
    (["a", "b"] : List String) = (["a", "b", "c"] : List String).take 2 ∧
    ((["q"] : List String).length = 1 ∧ (["q"] : List String) = ["q"]) :=
  ⟨by decide,
    ((getValidatedColumnNames_selection ["a", "b", "c"] ["a", "b", "c"] 2 []
      [] []).2 rfl).1 ["a", "b"] (by decide),
    (getValidatedColumnNames_selection [] ["q"] 1 ["q"] [] []).1
      (by decide) ["q"] (by decide)⟩

/-! ### Claim C4: unknown-column detection and error message -/

/-- C4: given that column selection succeeded with `selected`,
`GetValidatedColumnNames` succeeds exactly when every selected name exists in
the union of dataset-native, custom and data-source columns; otherwise it
fails with one message built from the unknown names, each listed exactly once
(the list of unknowns has no duplicates and contains exactly the unknown
selected names), with singular phrasing for one name and plural phrasing for
several. (`SelectColumns` and `FindUnknownColumns` are modelled from the
spec: their bodies are not under `src/`.) -/
theorem getValidatedColumnNames_unknown (defaultColumns treeBranchNames :
    List String) (nColumns : Nat)
    (columns validCustomColumns dsColumns selected : List String)
    (hsel : SelectColumns nColumns columns defaultColumns = Except.ok selected) :
    (GetValidatedColumnNames defaultColumns treeBranchNames nColumns columns
        validCustomColumns dsColumns = Except.ok selected ↔
      ∀ c ∈ selected, c ∈ treeBranchNames ∨ c ∈ validCustomColumns ∨ c ∈ dsColumns) ∧
    (¬(∀ c ∈ selected, c ∈ treeBranchNames ∨ c ∈ validCustomColumns ∨ c ∈ dsColumns) →
      GetValidatedColumnNames defaultColumns treeBranchNames nColumns columns
        validCustomColumns dsColumns =
        Except.error (unknownColumnsMessage
          (FindUnknownColumns selected treeBranchNames validCustomColumns dsColumns))) ∧
    (FindUnknownColumns selected treeBranchNames validCustomColumns dsColumns).Nodup ∧
    (∀ c, c ∈ FindUnknownColumns selected treeBranchNames validCustomColumns dsColumns ↔
      c ∈ selected ∧
        ¬(c ∈ treeBranchNames ∨ c ∈ validCustomColumns ∨ c ∈ dsColumns)) ∧
    (∀ u, FindUnknownColumns selected treeBranchNames validCustomColumns dsColumns
        = [u] →
      unknownColumnsMessage
        (FindUnknownColumns selected treeBranchNames validCustomColumns dsColumns) =
        "Unknown column: " ++ u) ∧
    (∀ u v rest, FindUnknownColumns selected treeBranchNames validCustomColumns
        dsColumns = u :: v :: rest →
      ∃ t, unknownColumnsMessage
        (FindUnknownColumns selected treeBranchNames validCustomColumns dsColumns) =
        "Unknown columns: " ++ t) := by
  have hmem := findUnknownColumns_mem selected treeBranchNames validCustomColumns
    dsColumns
  have hempty : FindUnknownColumns selected treeBranchNames validCustomColumns
      dsColumns = [] ↔
      ∀ c ∈ selected, c ∈ treeBranchNames ∨ c ∈ validCustomColumns ∨ c ∈ dsColumns := by
    rw [List.eq_nil_iff_forall_not_mem]
    constructor
    · intro h c hc
      by_contra hk
      exact h c ((hmem c).2 ⟨hc, hk⟩)
    · intro h c hc
      obtain ⟨h1, h2⟩ := (hmem c).1 hc
      exact h2 (h c h1)
  refine ⟨?_, ?_, findUnknownColumns_nodup _ _ _ _, hmem, ?_, ?_⟩
  · rw [gvcn_ok_iff]
    constructor
    · rintro ⟨-, h⟩
      exact hempty.1 h
    · intro h
      exact ⟨hsel, hempty.2 h⟩
  · intro h
    have hne : ¬ FindUnknownColumns selected treeBranchNames validCustomColumns
        dsColumns = [] := fun hnil => h (hempty.1 hnil)
    unfold GetValidatedColumnNames
    rw [hsel]
    dsimp only
    rw [if_neg (by simpa [List.isEmpty_iff] using hne)]
  · intro u hu
    rw [hu, unknownColumnsMessage_singleton]
  · intro u v rest hrest
    rw [hrest]
    exact unknownColumnsMessage_plural u v rest

/-- C4 witness. -/
theorem getValidatedColumnNames_unknown_witness :
    SelectColumns 2 ["pt", "nope"] ["d1"] = Except.ok ["pt", "nope"] ∧
    (GetValidatedColumnNames ["d1"] ["pt", "eta"] 2 ["pt", "nope"] [] [] =
        Except.ok ["pt", "nope"] ↔
      ∀ c ∈ (["pt", "nope"] : List String),
        c ∈ (["pt", "eta"] : List String) ∨ c ∈ ([] : List String) ∨
          c ∈ ([] : List String)) ∧
    (¬(∀ c ∈ (["pt", "nope"] : List String),
        c ∈ (["pt", "eta"] : List String) ∨ c ∈ ([] : List String) ∨
          c ∈ ([] : List String)) →
      GetValidatedColumnNames ["d1"] ["pt", "eta"] 2 ["pt", "nope"] [] [] =
        Except.error (unknownColumnsMessage
          (FindUnknownColumns ["pt", "nope"] ["pt", "eta"] [] []))) ∧
    (FindUnknownColumns ["pt", "nope"] ["pt", "eta"] [] []).Nodup ∧
    (∀ c, c ∈ FindUnknownColumns ["pt", "nope"] ["pt", "eta"] [] [] ↔
      c ∈ (["pt", "nope"] : List String) ∧
        ¬(c ∈ (["pt", "eta"] : List String) ∨ c ∈ ([] : List String) ∨
          c ∈ ([] : List String))) ∧
    (∀ u, FindUnknownColumns ["pt", "nope"] ["pt", "eta"] [] [] = [u] →
      unknownColumnsMessage (FindUnknownColumns ["pt", "nope"] ["pt", "eta"] [] []) =
        "Unknown column: " ++ u) ∧
    (∀ u v rest, FindUnknownColumns ["pt", "nope"] ["pt", "eta"] [] [] =
        u :: v :: rest →
      ∃ t, unknownColumnsMessage
        (FindUnknownColumns ["pt", "nope"] ["pt", "eta"] [] []) =
        "Unknown columns: " ++ t) :=
  ⟨by decide,
    getValidatedColumnNames_unknown ["d1"] ["pt", "eta"] 2 ["pt", "nope"]
      [] [] ["pt", "nope"] (by decide)⟩

/-! ### Claim C5: action-builder code generation -/

theorem resolveColumnTypes_ok (bl : List String) (colTypeName : String → String)
    (h : ∀ c ∈ bl, colTypeName c ≠ "") :
    resolveColumnTypes bl colTypeName = Except.ok (bl.map colTypeName) := by
  induction bl with
  | nil => rfl
  | cons c cs ih =>
    have hc : ¬ colTypeName c = "" := h c (by simp)
    have hcs := ih (fun x hx => h x (List.mem_cons_of_mem c hx))
    simp [resolveColumnTypes, hc, hcs]

theorem resolveColumnTypes_err (bl : List String) (colTypeName : String → String)
    (h : ∃ c ∈ bl, colTypeName c = "") :
    ∃ e, resolveColumnTypes bl colTypeName = Except.error e := by
  induction bl with
  | nil => simp at h
  | cons c cs ih =>
    by_cases hc : colTypeName c = ""
    · exact ⟨"The type of column " ++ c ++ " could not be guessed. Please specify one.",
        by simp [resolveColumnTypes, hc]⟩
    · obtain ⟨d, hd, hde⟩ := h
      rcases List.mem_cons.1 hd with rfl | hd'
      · exact absurd hde hc
      · obtain ⟨e, he⟩ := ih ⟨d, hd', hde⟩
        exact ⟨e, by simp [resolveColumnTypes, hc, he]⟩

set_option maxRecDepth 8192 in
/-- C5: with every column type resolved and both type identities registered,
`JitBuildAndBook` produces the call expression instantiating
`CallBuildAndBook` with the action type followed by one type argument per
column in list order, passing the typed previous-node reference, the quoted
column names in order, the slot count and the typed result-storage pointer;
an empty column type or an unregistered type identity yields an error. The
last conjunct is the spec scenario: columns `[pt, eta]` of type `double`,
action type `HistoAction`, result type `TH1D`, previous node
`FilterNode_7`, 4 slots. -/
theorem jitBuildAndBook_spec (bl : List String)
    (prevNodeTypename prevNode artName atName rOnHeap : String)
    (nSlots : Nat) (colTypeName : String → String) :
    ((∀ c ∈ bl, colTypeName c ≠ "") →
      JitBuildAndBook bl prevNodeTypename prevNode (some artName) (some atName)
          rOnHeap nSlots colTypeName =
        Except.ok ("ROOT::Internal::TDF::CallBuildAndBook" ++ "<" ++ atName ++
          String.join ((bl.map colTypeName).map (fun colType => ", " ++ colType)) ++
          ">(*reinterpret_cast<" ++ prevNodeTypename ++ "*>(" ++ prevNode ++
          "), \x7b" ++
          String.intercalate ", " (bl.map (fun c => "\"" ++ c ++ "\"")) ++
          "\x7d, " ++ Nat.repr nSlots ++ ", reinterpret_cast<" ++ artName ++
          "*>(" ++ rOnHeap ++ "));")) ∧
    ((∃ c ∈ bl, colTypeName c = "") → ∃ e,
      JitBuildAndBook bl prevNodeTypename prevNode (some artName) (some atName)
        rOnHeap nSlots colTypeName = Except.error e) ∧
    ((∀ c ∈ bl, colTypeName c ≠ "") → ∀ atc, ∃ e,
      JitBuildAndBook bl prevNodeTypename prevNode none atc
        rOnHeap nSlots colTypeName = Except.error e) ∧
    ((∀ c ∈ bl, colTypeName c ≠ "") → ∃ e,
      JitBuildAndBook bl prevNodeTypename prevNode (some artName) none
        rOnHeap nSlots colTypeName = Except.error e) ∧
    JitBuildAndBook ["pt", "eta"] "FilterNode_7" "0x1234" (some "TH1D")
        (some "HistoAction") "0x4321" 4 (fun _ => "double") =
      Except.ok ("ROOT::Internal::TDF::CallBuildAndBook<HistoAction, double, double>(*reinterpret_cast<FilterNode_7*>(0x1234), \x7b\"pt\", \"eta\"\x7d, 4, reinterpret_cast<TH1D*>(0x4321));") := by
  refine ⟨?_, ?_, ?_, ?_, by decide⟩
  · intro h
    simp [JitBuildAndBook, resolveColumnTypes_ok bl colTypeName h]
  · intro h
    obtain ⟨e, he⟩ := resolveColumnTypes_err bl colTypeName h
    exact ⟨e, by simp [JitBuildAndBook, he]⟩
  · intro h atc
    exact ⟨"An error occurred while inferring the result type of an operation.",
      by simp [JitBuildAndBook, resolveColumnTypes_ok bl colTypeName h]⟩
  · intro h
    exact ⟨"An error occurred while inferring the action type of the operation.",
      by simp [JitBuildAndBook, resolveColumnTypes_ok bl colTypeName h]⟩

/-- C5 witness. -/
theorem jitBuildAndBook_spec_witness :
    (∀ c ∈ (["pt", "eta"] : List String), (fun _ : String => "double") c ≠ "") ∧
    JitBuildAndBook ["pt", "eta"] "FilterNode_7" "0x1234" (some "TH1D")
        (some "HistoAction") "0x4321" 4 (fun _ => "double") =
      Except.ok ("ROOT::Internal::TDF::CallBuildAndBook" ++ "<" ++ "HistoAction" ++
        String.join (((["pt", "eta"] : List String).map
          (fun _ => "double")).map (fun colType => ", " ++ colType)) ++
        ">(*reinterpret_cast<" ++ "FilterNode_7" ++ "*>(" ++ "0x1234" ++
        "), \x7b" ++
        String.intercalate ", " ((["pt", "eta"] : List String).map
          (fun c => "\"" ++ c ++ "\"")) ++
        "\x7d, " ++ Nat.repr 4 ++ ", reinterpret_cast<" ++ "TH1D" ++
        "*>(" ++ "0x4321" ++ "));") :=
  ⟨by decide,
    (jitBuildAndBook_spec ["pt", "eta"] "FilterNode_7" "0x1234" "TH1D"
      "HistoAction" "0x4321" 4 (fun _ => "double")).1 (by decide)⟩

/-! ### Claim C7: uniqueness of the synthesized scope names

The counter printed into the scope name is decimal (`Nat.repr`); the lemmas
below establish that distinct counter values print distinct digit strings. -/

theorem digitChar_injOn_ten : ∀ a b : Fin 10,
    Nat.digitChar a.val = Nat.digitChar b.val → a = b := by decide

theorem toDigitsCore_acc (fuel : Nat) : ∀ (n : Nat) (ds : List Char),
    Nat.toDigitsCore 10 fuel n ds = Nat.toDigitsCore 10 fuel n [] ++ ds := by
  induction fuel with
  | zero => intro n ds; simp [Nat.toDigitsCore]
  | succ f ih =>
    intro n ds
    simp only [Nat.toDigitsCore]
    by_cases h : n / 10 = 0
    · simp [h]
    · simp only [h, if_false]
      rw [ih (n / 10) (Nat.digitChar (n % 10) :: ds),
        ih (n / 10) [Nat.digitChar (n % 10)], List.append_assoc]
      rfl

theorem toDigitsCore_fuel (n : Nat) : ∀ f, n < f →
    Nat.toDigitsCore 10 f n [] = Nat.toDigitsCore 10 (n + 1) n [] := by
  induction n using Nat.strong_induction_on with
  | _ n ih =>
    intro f hf
    obtain ⟨f', rfl⟩ : ∃ f', f = f' + 1 := ⟨f - 1, by omega⟩
    simp only [Nat.toDigitsCore]
    by_cases h : n / 10 = 0
    · simp [h]
    · simp only [h, if_false]
      have h10 : 10 ≤ n := by
        by_contra hlt
        exact h (Nat.div_eq_of_lt (by omega))
      have hlt : n / 10 < n := Nat.div_lt_self (by omega) (by omega)
      rw [toDigitsCore_acc f' (n / 10), toDigitsCore_acc n (n / 10),
        ih (n / 10) hlt f' (by omega), ih (n / 10) hlt n (by omega)]

theorem toDigits_small (n : Nat) (h : n / 10 = 0) :
    Nat.toDigits 10 n = [Nat.digitChar (n % 10)] := by
  unfold Nat.toDigits
  simp [Nat.toDigitsCore, h]

theorem toDigits_step (n : Nat) (h : ¬ n / 10 = 0) :
    Nat.toDigits 10 n = Nat.toDigits 10 (n / 10) ++ [Nat.digitChar (n % 10)] := by
  have h10 : 10 ≤ n := by
    by_contra hlt
    exact h (Nat.div_eq_of_lt (by omega))
  have step1 : Nat.toDigits 10 n =
      if n / 10 = 0 then [Nat.digitChar (n % 10)]
      else Nat.toDigitsCore 10 n (n / 10) [Nat.digitChar (n % 10)] := rfl
  rw [step1, if_neg h, toDigitsCore_acc n (n / 10),
    toDigitsCore_fuel (n / 10) n (Nat.div_lt_self (by omega) (by omega))]
  rfl

theorem toDigits_ne_nil (n : Nat) : Nat.toDigits 10 n ≠ [] := by
  by_cases h : n / 10 = 0
  · rw [toDigits_small n h]; simp
  · rw [toDigits_step n h]; simp

theorem toDigits_inj (n : Nat) : ∀ m : Nat,
    Nat.toDigits 10 n = Nat.toDigits 10 m → n = m := by
  induction n using Nat.strong_induction_on with
  | _ n ih =>
    intro m heq
    have hdigit : ∀ a b : Nat, Nat.digitChar (a % 10) = Nat.digitChar (b % 10) →
        a % 10 = b % 10 := by
      intro a b hab
      have ha : a % 10 < 10 := Nat.mod_lt _ (by omega)
      have hb : b % 10 < 10 := Nat.mod_lt _ (by omega)
      have := digitChar_injOn_ten ⟨a % 10, ha⟩ ⟨b % 10, hb⟩ hab
      exact congrArg Fin.val this
    by_cases hn : n / 10 = 0 <;> by_cases hm : m / 10 = 0
    · rw [toDigits_small n hn, toDigits_small m hm] at heq
      injection heq with h1
      have h2 := hdigit n m h1
      omega
    · exfalso
      rw [toDigits_small n hn, toDigits_step m hm] at heq
      have hlen := congrArg List.length heq
      simp only [List.length_append, List.length_singleton] at hlen
      have hz : (Nat.toDigits 10 (m / 10)).length = 0 := by omega
      exact toDigits_ne_nil (m / 10) (List.length_eq_zero.1 hz)
    · exfalso
      rw [toDigits_step n hn, toDigits_small m hm] at heq
      have hlen := congrArg List.length heq
      simp only [List.length_append, List.length_singleton] at hlen
      have hz : (Nat.toDigits 10 (n / 10)).length = 0 := by omega
      exact toDigits_ne_nil (n / 10) (List.length_eq_zero.1 hz)
    · rw [toDigits_step n hn, toDigits_step m hm] at heq
      obtain ⟨h1, h2⟩ := List.append_inj' heq (by simp)
      have hrec := ih (n / 10) (Nat.div_lt_self (by omega) (by omega)) (m / 10) h1
      injection h2 with h3
      have h4 := hdigit n m h3
      omega

theorem natRepr_inj (n m : Nat) (h : Nat.repr n = Nat.repr m) : n = m := by
  unfold Nat.repr at h
  have hd : Nat.toDigits 10 n = Nat.toDigits 10 m := by
    have := congrArg String.data h
    simpa [List.asString] using this
  exact toDigits_inj n m hd

theorem string_data_inj (s t : String) (h : s.data = t.data) : s = t := by
  cases s
  cases t
  simp_all

/-- C7 counterexample: the counter behind the scope names is a 32-bit
`unsigned int`, so it wraps: invocation `2^32` reuses the scope name of
invocation `0`, refuting pairwise distinctness over arbitrary invocation
sequences. -/
theorem scopeName_wrap_cex :
    scopeName 4294967296 = scopeName 0 ∧ (4294967296 : Nat) ≠ 0 := by
  constructor
  · unfold scopeName
    norm_num
  · omega

/-- C7 (amended): scope names synthesized by `JitTransformation` are pairwise
distinct as long as the invocation indices stay below `2^32`, the modulus of
the `unsigned int` counter (equivalently: within any window of `2^32`
consecutive invocations no scope name repeats). -/
theorem scopeName_distinct (m n : Nat) (hm : m < 4294967296)
    (hn : n < 4294967296) (hne : m ≠ n) : scopeName m ≠ scopeName n := by
  intro h
  unfold scopeName at h
  rw [Nat.mod_eq_of_lt hm, Nat.mod_eq_of_lt hn] at h
  have hdata := congrArg String.data h
  have happ : ∀ s t : String, (s ++ t).data = s.data ++ t.data := fun s t => rfl
  rw [happ, happ] at hdata
  have h2 : (Nat.repr m).data = (Nat.repr n).data := List.append_cancel_left hdata
  exact hne (natRepr_inj m n (string_data_inj _ _ h2))

/-- C7 witness. -/
theorem scopeName_distinct_witness :
    (0 : Nat) < 4294967296 ∧ (1 : Nat) < 4294967296 ∧ (0 : Nat) ≠ 1 ∧
    scopeName 0 ≠ scopeName 1 :=
  ⟨by omega, by omega, by omega, scopeName_distinct 0 1 (by omega) (by omega) (by omega)⟩

/-! ### Claim C6: failing compile steps abort before the graph-extension call -/

/-- C6: if the placeholder-declaration step fails (first conjunct) or the
stand-alone expression-validation step fails (second conjunct),
`JitTransformation` raises an error whose message includes the generated
source fragment, and no `Calc` request (the graph-extension call of step 6)
is ever submitted, so no partial graph mutation occurs. -/
theorem jitTransformation_failure_no_calc (interp : Interp) (iNs : Nat)
    (thisPtr methodName interfaceTypeName name expression : String)
    (branches customColumns : List String) (colTypeName : String → String)
    (returnTypeName : String) (dsColumns : List String) :
    (FindUsedColumnNames expression branches customColumns dsColumns ≠ [] →
      interp.ProcessLine (variableDeclarations (scopeName iNs)
        (FindUsedColumnNames expression branches customColumns dsColumns)
        colTypeName) ≠ 0 →
      (∃ post, (JitTransformation interp iNs thisPtr methodName interfaceTypeName
          name expression branches customColumns colTypeName returnTypeName
          dsColumns).1 =
        Except.error ("Cannot declare these variables:  " ++
          variableDeclarations (scopeName iNs)
            (FindUsedColumnNames expression branches customColumns dsColumns)
            colTypeName ++ post)) ∧
      (∀ s, JitEvent.calcCode s ∉ (JitTransformation interp iNs thisPtr methodName
        interfaceTypeName name expression branches customColumns colTypeName
        returnTypeName dsColumns).2)) ∧
    ((FindUsedColumnNames expression branches customColumns dsColumns = [] ∨
        interp.ProcessLine (variableDeclarations (scopeName iNs)
          (FindUsedColumnNames expression branches customColumns dsColumns)
          colTypeName) = 0) →
      interp.Declare (resDeclaration (scopeName iNs) expression) = false →
      (∃ pre, (JitTransformation interp iNs thisPtr methodName interfaceTypeName
          name expression branches customColumns colTypeName returnTypeName
          dsColumns).1 =
        Except.error (pre ++ resDeclaration (scopeName iNs) expression)) ∧
      (∀ s, JitEvent.calcCode s ∉ (JitTransformation interp iNs thisPtr methodName
        interfaceTypeName name expression branches customColumns colTypeName
        returnTypeName dsColumns).2)) := by
  constructor
  · intro hused hPL
    have hB : (FindUsedColumnNames expression branches customColumns
        dsColumns).isEmpty = false := by
      rcases Bool.eq_false_or_eq_true
        ((FindUsedColumnNames expression branches customColumns dsColumns).isEmpty)
        with h | h
      · exact absurd (List.isEmpty_iff.1 h) hused
      · exact h
    constructor
    · refine ⟨"\nInterpreter error code is " ++
        (Nat.repr (interp.ProcessLine (variableDeclarations (scopeName iNs)
          (FindUsedColumnNames expression branches customColumns dsColumns)
          colTypeName)) ++ "."), ?_⟩
      simp [JitTransformation, hB, hPL, String.append_assoc]
    · intro s
      simp [JitTransformation, hB, hPL]
  · intro hor hdecl
    rcases hor with hused | hPL0
    · constructor
      · refine ⟨"Cannot interpret this expression: " ++ " ", ?_⟩
        simp [JitTransformation, hused, hdecl, String.append_assoc]
      · intro s
        simp [JitTransformation, hused, hdecl]
    · constructor
      · refine ⟨"Cannot interpret this expression: " ++ " ", ?_⟩
        simp [JitTransformation, hPL0, hdecl, String.append_assoc]
      · intro s
        rcases hE : (FindUsedColumnNames expression branches customColumns
            dsColumns).isEmpty with - | -
        · simp [JitTransformation, hE, hPL0, hdecl]
        · simp [JitTransformation, hE, hdecl]

/-- C6 witness. -/
theorem jitTransformation_failure_no_calc_witness :
    (FindUsedColumnNames "x > 0" [] ["x"] [] ≠ [] ∧
      failingInterp.ProcessLine (variableDeclarations (scopeName 0)
        (FindUsedColumnNames "x > 0" [] ["x"] []) (fun _ => "double")) ≠ 0) ∧
    ((∃ post, (JitTransformation failingInterp 0 "0x1" "Filter" "IF" "f" "x > 0"
        [] ["x"] (fun _ => "double") "RT" []).1 =
      Except.error ("Cannot declare these variables:  " ++
        variableDeclarations (scopeName 0) (FindUsedColumnNames "x > 0" [] ["x"] [])
          (fun _ => "double") ++ post)) ∧
    (∀ s, JitEvent.calcCode s ∉ (JitTransformation failingInterp 0 "0x1" "Filter"
      "IF" "f" "x > 0" [] ["x"] (fun _ => "double") "RT" []).2)) :=
  ⟨⟨by decide, by decide⟩,
    (jitTransformation_failure_no_calc failingInterp 0 "0x1" "Filter" "IF" "f"
      "x > 0" [] ["x"] (fun _ => "double") "RT" []).1 (by decide) (by decide)⟩

/-! ### Claim C9: expressions referencing no known column -/

/-- C9: when no known column name occurs in the expression as an isolated
token (the resolver returns `[]`) and the expression validates, the
placeholder-declaration step is skipped entirely (no `ProcessLine` request is
submitted), the synthesized callable takes zero parameters, and the
graph-extension call carries an empty column-name list (`\x7b\x7d`). -/
theorem jitTransformation_no_columns (interp : Interp) (iNs : Nat)
    (thisPtr methodName interfaceTypeName name expression : String)
    (branches customColumns : List String) (colTypeName : String → String)
    (returnTypeName : String) (dsColumns : List String)
    (hused : FindUsedColumnNames expression branches customColumns dsColumns = [])
    (hdecl : interp.Declare (resDeclaration (scopeName iNs) expression) = true) :
    (∀ s, JitEvent.processLine s ∉ (JitTransformation interp iNs thisPtr methodName
      interfaceTypeName name expression branches customColumns colTypeName
      returnTypeName dsColumns).2) ∧
    (JitTransformation interp iNs thisPtr methodName interfaceTypeName name
        expression branches customColumns colTypeName returnTypeName dsColumns).2 =
      [JitEvent.declareCode (resDeclaration (scopeName iNs) expression),
       JitEvent.calcCode (callInvocation thisPtr methodName interfaceTypeName name
         returnTypeName ("[]()\x7b return " ++ expression ++ ";\x7d") [])] ∧
    filterLambda [] [] expression = "[]()\x7b return " ++ expression ++ ";\x7d" ∧
    callInvocation thisPtr methodName interfaceTypeName name returnTypeName
        ("[]()\x7b return " ++ expression ++ ";\x7d") [] =
      "ROOT::Experimental::TDF::TInterface<" ++ returnTypeName ++ ">(((" ++
        interfaceTypeName ++ "*)" ++ thisPtr ++ ")->" ++ methodName ++ "(" ++
        (if methodName == "Define" then "\"" ++ name ++ "\", " else "") ++
        ("[]()\x7b return " ++ expression ++ ";\x7d") ++ ", \x7b\x7d" ++
        (if methodName == "Filter" then ", \"" ++ name ++ "\"" else "") ++ "));" := by
  have hlam : filterLambda [] [] expression =
      "[]()\x7b return " ++ expression ++ ";\x7d" := by
    simp [filterLambda, String.append_empty, String.append_assoc, String.join]
  have hcall : callInvocation thisPtr methodName interfaceTypeName name
      returnTypeName ("[]()\x7b return " ++ expression ++ ";\x7d") [] =
      "ROOT::Experimental::TDF::TInterface<" ++ returnTypeName ++ ">(((" ++
        interfaceTypeName ++ "*)" ++ thisPtr ++ ")->" ++ methodName ++ "(" ++
        (if methodName == "Define" then "\"" ++ name ++ "\", " else "") ++
        ("[]()\x7b return " ++ expression ++ ";\x7d") ++ ", \x7b\x7d" ++
        (if methodName == "Filter" then ", \"" ++ name ++ "\"" else "") ++ "));" := by
    simp [callInvocation, String.append_empty, String.append_assoc, String.join]
  refine ⟨?_, ?_, hlam, hcall⟩
  · intro s
    simp [JitTransformation, hused, hdecl, hlam, apply_ite]
  · simp only [JitTransformation, hused]
    simp [hdecl, hlam, apply_ite]

/-- C9 witness. -/
theorem jitTransformation_no_columns_witness :
    (FindUsedColumnNames "1 + 2" [] [] [] = [] ∧
      okInterp.Declare (resDeclaration (scopeName 0) "1 + 2") = true) ∧
    ((∀ s, JitEvent.processLine s ∉ (JitTransformation okInterp 0 "0x1" "Define"
      "IF" "newcol" "1 + 2" [] [] (fun _ => "double") "RT" []).2) ∧
    (JitTransformation okInterp 0 "0x1" "Define" "IF" "newcol" "1 + 2" [] []
        (fun _ => "double") "RT" []).2 =
      [JitEvent.declareCode (resDeclaration (scopeName 0) "1 + 2"),
       JitEvent.calcCode (callInvocation "0x1" "Define" "IF" "newcol" "RT"
         ("[]()\x7b return " ++ "1 + 2" ++ ";\x7d") [])] ∧
    filterLambda [] [] "1 + 2" = "[]()\x7b return " ++ "1 + 2" ++ ";\x7d" ∧
    callInvocation "0x1" "Define" "IF" "newcol" "RT"
        ("[]()\x7b return " ++ "1 + 2" ++ ";\x7d") [] =
      "ROOT::Experimental::TDF::TInterface<" ++ "RT" ++ ">(((" ++
        "IF" ++ "*)" ++ "0x1" ++ ")->" ++ "Define" ++ "(" ++
        (if ("Define" : String) == "Define" then "\"" ++ "newcol" ++ "\", " else "") ++
        ("[]()\x7b return " ++ "1 + 2" ++ ";\x7d") ++ ", \x7b\x7d" ++
        (if ("Define" : String) == "Filter" then ", \"" ++ "newcol" ++ "\"" else "") ++
        "));") :=
  ⟨⟨by decide, by decide⟩,
    jitTransformation_no_columns okInterp 0 "0x1" "Define" "IF" "newcol" "1 + 2"
      [] [] (fun _ => "double") "RT" [] (by decide) (by decide)⟩

end TDF
